import Mathlib

/-!
Formal model of the shark-tracker backend core: the synchronization pass
(`src/services/sharkSync.ts`), the query endpoints (`backend/src/sharks.ts`),
and the sea-surface-temperature cache (`backend/src/lib/sstClient.ts`).

Modelling conventions:
* JS numbers holding coordinates are rationals (floating-point noise is out
  of scope).
* Timestamps (ISO strings, `Date.now()`) are integers denoting milliseconds
  since the epoch; real time is supplied by a logical clock in the stored
  state that every successful write advances, so stored `created_at` values
  are strictly increasing, as they are for a live database whose clock only
  moves forward.
* Nullable JS values are `Option`; `??` is `Option.orElse` (it falls
  through only on null/undefined, in particular not on empty strings).
* Storage calls whose failure the code checks are driven by explicit
  failure flags; a failed call leaves the stored state unchanged.
-/

namespace SharkTracker

/-- JS `Math.round`: round half toward positive infinity. -/
def jsRound (q : ℚ) : ℤ := ⌊q + 1/2⌋

/-- `roundCoord` from sharkSync.ts: `Math.round(value * 1e5) / 1e5`. -/
def roundCoord (v : ℚ) : ℚ := (jsRound (v * 100000) : ℚ) / 100000

/-- One GeoJSON feature of the upstream feed, carrying the properties the
sync pass reads. `coords` is `geometry.coordinates` in
`[longitude, latitude]` order. String-valued properties are
`Option String` (`none` = null/undefined); upstream time fields are
pre-parsed to integer epoch-milliseconds. -/
structure Feature where
  coords : Option (ℚ × ℚ)
  propId : Option String
  slug : Option String
  name : Option String
  species : Option String
  last_ping : Option ℤ
  last_update : Option ℤ
deriving DecidableEq

/-- A row of the `sharks` table (the free-form `meta` bag is not modelled:
no claim reads it, and on identical feeds it is rewritten unchanged). -/
structure SharkRow where
  id : ℕ
  external_id : String
  name : Option String
  species : Option String
  image_url : Option String
  updated_at : ℤ
deriving DecidableEq

/-- A row of the `shark_positions` table. -/
structure PositionRow where
  shark_id : ℕ
  lat : ℚ
  lng : ℚ
  source_timestamp : Option ℤ
  created_at : ℤ
deriving DecidableEq

/-- The stored state: both tables, the sequence backing `sharks.id`, and
the logical clock supplying `new Date()` / `created_at` values. -/
structure DB where
  sharks : List SharkRow
  positions : List PositionRow
  nextId : ℕ
  clock : ℤ
deriving DecidableEq

/-- `String(props.id ?? props.slug ?? props.name ?? "")` from sharkSync.ts:
JS `??` falls through only on null/undefined, never on an empty string. -/
def resolveExternalId (f : Feature) : String :=
  ((f.propId.orElse fun _ => f.slug).orElse fun _ => f.name).getD ""

/-- `props.last_ping || props.last_update || null` (time fields modelled as
already-parsed timestamps, absent = `none`). -/
def featureSourceTimestamp (f : Feature) : Option ℤ :=
  f.last_ping.orElse fun _ => f.last_update

/-- The fresh `sharks` row inserted for a previously unseen external id. -/
def newSharkRow (db : DB) (e : String) (nm sp : Option String) : SharkRow :=
  ⟨db.nextId, e, nm, sp, none, db.clock⟩

/-- The `sharks` upsert keyed `onConflict: "external_id"`: update the
matching row's mutable fields, else insert a fresh row. Returns the new
state and the row id selected by `.select("id").single()`. -/
def upsertShark (db : DB) (e : String) (nm sp : Option String) : DB × ℕ :=
  match db.sharks.find? (fun r => r.external_id == e) with
  | some r =>
      ({ db with
          sharks := db.sharks.map fun s =>
            if s.external_id == e then
              { s with name := nm, species := sp, updated_at := db.clock }
            else s,
          clock := db.clock + 1 }, r.id)
  | none =>
      ({ db with
          sharks := db.sharks ++ [newSharkRow db e nm sp],
          nextId := db.nextId + 1,
          clock := db.clock + 1 }, db.nextId)

/-- Accumulator of the latest-row query (`order by created_at descending,
limit 1`). -/
def latestBy : Option PositionRow → PositionRow → Option PositionRow
  | none, p => some p
  | some q, p => if q.created_at < p.created_at then some p else some q

/-- The latest stored position of one shark among a list of rows. -/
def lastPositionOf (ps : List PositionRow) (sid : ℕ) : Option PositionRow :=
  (ps.filter fun p => p.shark_id == sid).foldl latestBy none

/-- Step 3 of the sync loop: fetch the shark's most recent stored position. -/
def lastPosition (db : DB) (sid : ℕ) : Option PositionRow :=
  lastPositionOf db.positions sid

/-- `hasMoved` from sharkSync.ts: true when no previous row exists, or when
the re-rounded stored coordinates differ from the (already rounded) new
ones on at least one axis. -/
def hasMoved (lastPos : Option PositionRow) (lat lng : ℚ) : Bool :=
  match lastPos with
  | none => true
  | some p => decide (roundCoord p.lat ≠ lat) || decide (roundCoord p.lng ≠ lng)

/-- Which storage calls fail while handling one feature (the sync code
paths `if (sharkErr || !sharkRow)`, `if (lastErr)`, `if (insertErr)`). -/
structure FailSpec where
  upsertFails : Bool
  lastPosFails : Bool
  insertFails : Bool
deriving DecidableEq

/-- All storage calls succeed. -/
def noFail : FailSpec := ⟨false, false, false⟩

/-- The position row inserted for shark `sid` at state `db1` (the state
right after the upsert). -/
def newPositionRow (db1 : DB) (sid : ℕ) (lat lng : ℚ) (f : Feature) :
    PositionRow :=
  ⟨sid, lat, lng, featureSourceTimestamp f, db1.clock⟩

/-- The body of the `for (const feature of geojson.features)` loop of
`refreshSharkPositions`: the stored state after handling one feature, and
the number of position rows it inserted (0 or 1). -/
def processFeature (fs : FailSpec) (db : DB) (f : Feature) : DB × ℕ :=
  match f.coords with
  | none => (db, 0)
  | some (lngRaw, latRaw) =>
    let lat := roundCoord latRaw
    let lng := roundCoord lngRaw
    let e := resolveExternalId f
    if e = "" then (db, 0)
    else if fs.upsertFails then (db, 0)
    else
      let u := upsertShark db e f.name f.species
      if fs.lastPosFails then (u.1, 0)
      else if hasMoved (lastPosition u.1 u.2) lat lng then
        if fs.insertFails then (u.1, 0)
        else
          ({ u.1 with
              positions := u.1.positions ++ [newPositionRow u.1 u.2 lat lng f],
              clock := u.1.clock + 1 }, 1)
      else (u.1, 0)

/-- One iteration of the pass's fold: thread the state, accumulate the
inserted count. -/
def passStep (acc : DB × ℕ) (ff : Feature × FailSpec) : DB × ℕ :=
  ((processFeature ff.2 acc.1 ff.1).1,
    acc.2 + (processFeature ff.2 acc.1 ff.1).2)

/-- One sync pass over the feed, each feature paired with the storage
failures it encounters; returns the final state and the `insertedPoints`
count the pass logs. -/
def runPass (db : DB) (feed : List (Feature × FailSpec)) : DB × ℕ :=
  feed.foldl passStep (db, 0)

/-- `refreshSharkPositions` with every storage call succeeding. -/
def refreshSharkPositions (db : DB) (feed : List Feature) : DB × ℕ :=
  runPass db (feed.map fun f => (f, noFail))

/-! ### Invariants used to reason about repeated passes -/

/-- A feature the sync loop actually processes: it has coordinates and a
non-empty resolved identity. -/
def usable (f : Feature) : Bool :=
  f.coords.isSome && !(resolveExternalId f == "")

/-- The resolved identities of the usable features of a feed. -/
def usableIds (feed : List Feature) : List String :=
  (feed.filter usable).map resolveExternalId

/-- Well-formedness of the stored state, as guaranteed by the database:
`sharks.id` values are distinct and below the id sequence, and stored
`created_at` values lie in the past of the clock. -/
def WF (db : DB) : Prop :=
  (db.sharks.map SharkRow.id).Nodup ∧
  (∀ r ∈ db.sharks, r.id < db.nextId) ∧
  (∀ p ∈ db.positions, p.created_at < db.clock)

/-- The internal id the feed identity `e` resolves to, if any. -/
def sharkIdFor (db : DB) (e : String) : Option ℕ :=
  (db.sharks.find? (fun s => s.external_id == e)).map SharkRow.id

/-- A feature is settled in a state when its entity exists and the
entity's latest stored position rounds to the feature's rounded
coordinates — precisely the situation in which the movement detector
reports no movement. -/
def settled (db : DB) (f : Feature) : Prop :=
  ∀ c : ℚ × ℚ, f.coords = some c → resolveExternalId f ≠ "" →
    ∃ sid, sharkIdFor db (resolveExternalId f) = some sid ∧
      ∃ p, lastPosition db sid = some p ∧
        roundCoord p.lat = roundCoord c.2 ∧ roundCoord p.lng = roundCoord c.1

/-! ### The query layer (`backend/src/sharks.ts`, current version)

The numeric-finiteness and ISO-validity guards of the code
(`Number.isFinite(lat)`, `safeIso`) are vacuous in this model: rationals
are always finite and timestamps are always valid. -/

/-- `order by created_at ascending`. -/
def posLE (a b : PositionRow) : Prop := a.created_at ≤ b.created_at

instance : DecidableRel posLE := fun a b =>
  inferInstanceAs (Decidable (a.created_at ≤ b.created_at))

instance : IsTotal PositionRow posLE :=
  ⟨fun a b => Int.le_total a.created_at b.created_at⟩

instance : IsTrans PositionRow posLE :=
  ⟨fun _ _ _ hab hbc => le_trans hab hbc⟩

/-- `order by id ascending` on the sharks table. -/
def sharkIdLE (a b : SharkRow) : Prop := a.id ≤ b.id

instance : DecidableRel sharkIdLE := fun a b =>
  inferInstanceAs (Decidable (a.id ≤ b.id))

instance : IsTotal SharkRow sharkIdLE :=
  ⟨fun a b => Nat.le_total a.id b.id⟩

instance : IsTrans SharkRow sharkIdLE :=
  ⟨fun _ _ _ hab hbc => le_trans hab hbc⟩

/-- One element of a `track` array in the `GET /sharks` response. -/
structure SharkTrackPoint where
  lat : ℚ
  lng : ℚ
  time : ℤ
deriving DecidableEq

/-- `{ lat, lng, time: source_timestamp ?? created_at }`. -/
def toTrackPoint (r : PositionRow) : SharkTrackPoint :=
  ⟨r.lat, r.lng, r.source_timestamp.getD r.created_at⟩

/-- Step 2 of `GET /sharks`: all positions of the listed sharks, in one
query, ordered by `created_at` ascending (no time restriction). -/
def queryPositionsIn (db : DB) (ids : List ℕ) : List PositionRow :=
  List.insertionSort posLE (db.positions.filter
    (fun p => ids.contains p.shark_id))

/-- Step 3 of `GET /sharks`: the rows grouped under one shark, in query
order. -/
def trackRowsFor (db : DB) (ids : List ℕ) (sid : ℕ) : List PositionRow :=
  (queryPositionsIn db ids).filter (fun p => p.shark_id == sid)

/-- The `track` array served for one shark. -/
def trackFor (db : DB) (ids : List ℕ) (sid : ℕ) : List SharkTrackPoint :=
  (trackRowsFor db ids sid).map toTrackPoint

/-- `getLatest`: the last element of a track, if any. -/
def getLatest (track : List SharkTrackPoint) : Option SharkTrackPoint :=
  track.getLast?

/-- One entry of the `GET /sharks` response (fields the claims read; the
display-name fallback strings and the numeric re-interpretation of the
external id are presentation details left out). -/
structure SharkResp where
  internalId : ℕ
  latitude : ℚ
  longitude : ℚ
  last_update : ℤ
  approxSst : Option ℚ
  track : List SharkTrackPoint
deriving DecidableEq

/-- `GET /sharks` before SST enrichment: sharks ordered by id; each with
its full track; a shark with no usable position is dropped from the
response (`if (!latest) return null`). -/
def getSharksResponse (db : DB) : List SharkResp :=
  (List.insertionSort sharkIdLE db.sharks).filterMap (fun r =>
    match getLatest (trackFor db
        ((List.insertionSort sharkIdLE db.sharks).map SharkRow.id) r.id) with
    | none => none
    | some latest =>
        some ⟨r.id, latest.lat, latest.lng, latest.time, none,
          trackFor db
            ((List.insertionSort sharkIdLE db.sharks).map SharkRow.id) r.id⟩)

/-- The result of `Number(hoursRaw)` for a present, non-empty `hours`
query parameter: either not a finite number (`NaN`, `±Infinity`) or a
finite value. -/
inductive JsNumber
  | nan
  | val (q : ℚ)
deriving DecidableEq

/-- The `:id` path parameter: its raw text (compared against the TEXT
column `external_id`) and, when `Number(idParam)` is finite, that numeric
value. -/
structure IdParam where
  raw : String
  asNumber : Option ℚ
deriving DecidableEq

/-- Which storage reads fail while serving the track endpoint. -/
structure QueryFail where
  extLookupFails : Bool
  intLookupFails : Bool
  posQueryFails : Bool
deriving DecidableEq

/-- All query-side storage reads succeed. -/
def qfOk : QueryFail := ⟨false, false, false⟩

/-- Step 1 of the track endpoint: resolve the internal shark id — first
by `external_id`; if that lookup errors or finds nothing, and the
parameter is numeric, fall back to the internal `sharks.id`. -/
def resolveTrackId (qf : QueryFail) (db : DB) (idp : IdParam) : Option ℕ :=
  match (if qf.extLookupFails then none
         else db.sharks.find? (fun r => r.external_id == idp.raw)) with
  | some r => some r.id
  | none =>
      match idp.asNumber with
      | some q =>
          if qf.intLookupFails then none
          else
            match db.sharks.find? (fun r => decide ((r.id : ℚ) = q)) with
            | some r => some r.id
            | none => none
      | none => none

/-- One element of the track endpoint's response. -/
structure TrackOut where
  latitude : ℚ
  longitude : ℚ
  timestamp : ℤ
deriving DecidableEq

/-- `{ latitude, longitude, timestamp: source_timestamp ?? created_at }`. -/
def toTrackOut (r : PositionRow) : TrackOut :=
  ⟨r.lat, r.lng, r.source_timestamp.getD r.created_at⟩

/-- A track endpoint response: a JSON array, or a 500. -/
inductive TrackResult
  | ok (pts : List TrackOut)
  | serverError
deriving DecidableEq

/-- `GET /sharks/:id/track`. `hours` is the parsed query parameter
(`none` when absent or empty-string); `now` is `Date.now()`. The
sub-millisecond truncation `new Date(...)` applies to the bound is not
modelled (the bound is kept exact). -/
def sharkTrack (qf : QueryFail) (db : DB) (idp : IdParam)
    (hours : Option JsNumber) (now : ℤ) : TrackResult :=
  let sinceIso : Option ℚ :=
    match hours with
    | some (JsNumber.val q) =>
        if 0 < q then some ((now : ℚ) - q * 3600000) else none
    | _ => none
  match resolveTrackId qf db idp with
  | none => TrackResult.ok []
  | some sid =>
      if sid = 0 then TrackResult.ok []
      else if qf.posQueryFails then TrackResult.serverError
      else
        TrackResult.ok ((List.insertionSort posLE (db.positions.filter
          (fun p => p.shark_id == sid &&
            (match sinceIso with
             | some s => decide (s ≤ (p.created_at : ℚ))
             | none => true)))).map toTrackOut)

/-! ### The SST cache (`backend/src/lib/sstClient.ts`)

The `Map` is modelled as an association list; `Map.set` replaces the
entry for the key (the claims never observe iteration order). The
null-coordinate early return is vacuous here (coordinates are always
present). -/

/-- The formatting behaviour of JS `toFixed(2)`: the sign is extracted
before rounding and the magnitude is then rounded half-up to hundredths,
so negative ties round away from zero (`(-0.125).toFixed(2)` is
`"-0.13"`) and small negative values keep their sign
(`(-0.001).toFixed(2)` is `"-0.00"`, a different string from `"0.00"`).
The produced string is determined by, and determines, the pair
(is the value negative, hundredths of the rounded magnitude);
`toFixed2` is that pair. -/
def toFixed2 (q : ℚ) : Bool × ℕ :=
  (decide (q < 0), (jsRound (|q| * 100)).toNat)

/-- A cache key: the `toFixed(2)` strings of latitude and longitude plus
the UTC calendar day, each string through its faithful pair encoding. -/
abbrev SstKey := (Bool × ℕ) × (Bool × ℕ) × ℤ

/-- A cache entry: the fetched value and its expiry instant. -/
structure CacheEntry where
  value : ℚ
  expiresAt : ℤ
deriving DecidableEq

abbrev SstCache := List (SstKey × CacheEntry)

/-- `new Date(now).toISOString().slice(0, 10)`: the UTC calendar day. -/
def utcDay (now : ℤ) : ℤ := Int.fdiv now 86400000

/-- `makeCacheKey`. -/
def makeCacheKey (latitude longitude : ℚ) (now : ℤ) : SstKey :=
  (toFixed2 latitude, toFixed2 longitude, utcDay now)

/-- `CACHE_TTL_MS = 60 * 60 * 1000`. -/
def CACHE_TTL_MS : ℤ := 3600000

/-- `SST_CACHE.get(key)`. -/
def cacheGet (c : SstCache) (k : SstKey) : Option CacheEntry :=
  (c.find? (fun kv => decide (kv.1 = k))).map Prod.snd

/-- `SST_CACHE.set(key, entry)`. -/
def cacheSet (c : SstCache) (k : SstKey) (e : CacheEntry) : SstCache :=
  (c.filter (fun kv => !decide (kv.1 = k))) ++ [(k, e)]

/-- The lazy expiry check on lookup:
`cached && cached.expiresAt > Date.now()`. -/
def cacheHitValue (c : SstCache) (k : SstKey) (now : ℤ) : Option ℚ :=
  match cacheGet c k with
  | some e => if now < e.expiresAt then some e.value else none
  | none => none

/-- What the Open-Meteo call would deliver: a transport/HTTP failure, a
response without a numeric `sea_surface_temperature`, or a value. -/
inductive SstUpstream
  | httpError
  | noValue
  | value (v : ℚ)
deriving DecidableEq

/-- `fetchSeaSurfaceTemperature`: serve a fresh cache entry, otherwise
call upstream; only a successful numeric value is returned and cached. -/
def fetchSeaSurfaceTemperature (c : SstCache) (latitude longitude : ℚ)
    (now : ℤ) (upstream : SstUpstream) : Option ℚ × SstCache :=
  match cacheHitValue c (makeCacheKey latitude longitude now) now with
  | some v => (some v, c)
  | none =>
      match upstream with
      | SstUpstream.httpError => (none, c)
      | SstUpstream.noValue => (none, c)
      | SstUpstream.value v =>
          (some v, cacheSet c (makeCacheKey latitude longitude now)
            ⟨v, now + CACHE_TTL_MS⟩)

/-- `addApproxSstToSharks`: sequentially enrich each response entry,
threading the cache; a failed enrichment (including a thrown one — the
`catch` branch) yields `approxSst = null` for that entry only. -/
def addApproxSstToSharks (now : ℤ) :
    SstCache → List (SharkResp × SstUpstream) → List SharkResp × SstCache
  | c, [] => ([], c)
  | c, (s, u) :: rest =>
      ({ s with approxSst :=
          (fetchSeaSurfaceTemperature c s.latitude s.longitude now u).1 } ::
        (addApproxSstToSharks now
          (fetchSeaSurfaceTemperature c s.latitude s.longitude now u).2
          rest).1,
        (addApproxSstToSharks now
          (fetchSeaSurfaceTemperature c s.latitude s.longitude now u).2
          rest).2)

/-! ### Basic facts about the sync step -/

theorem upsertShark_positions (db : DB) (e : String) (nm sp : Option String) :
    (upsertShark db e nm sp).1.positions = db.positions := by
  cases h : db.sharks.find? (fun r => r.external_id == e) <;>
    simp [upsertShark, h]

theorem upsertShark_clock (db : DB) (e : String) (nm sp : Option String) :
    (upsertShark db e nm sp).1.clock = db.clock + 1 := by
  cases h : db.sharks.find? (fun r => r.external_id == e) <;>
    simp [upsertShark, h]

/-- The no-failure step, with the control flow already resolved for a
feature that has coordinates and a usable identity. -/
theorem processFeature_noFail_eq (db : DB) (f : Feature) (lngRaw latRaw : ℚ)
    (u : DB × ℕ)
    (hc : f.coords = some (lngRaw, latRaw)) (he : resolveExternalId f ≠ "")
    (hu : upsertShark db (resolveExternalId f) f.name f.species = u) :
    processFeature noFail db f =
      (if hasMoved (lastPosition u.1 u.2) (roundCoord latRaw)
           (roundCoord lngRaw) then
         ({ u.1 with
             positions := u.1.positions ++
               [newPositionRow u.1 u.2 (roundCoord latRaw)
                  (roundCoord lngRaw) f],
             clock := u.1.clock + 1 }, 1)
       else (u.1, 0)) := by
  simp only [processFeature, hc, noFail, if_neg he, Bool.false_eq_true,
    if_false, hu]

/-- **C1.** For every feature processed in a sync pass (usable coordinates
and identity, storage healthy): if the entity has no previously stored
position, a new PositionRecord is inserted unconditionally; if a last
stored position exists, a record is inserted iff the rounded latitude or
the rounded longitude differs (strict inequality on at least one axis)
from the stored coordinates after rounding, so raw coordinates that round
to the same 5-decimal values never count as movement. -/
theorem C1_movement_detection (db : DB) (f : Feature) (lngRaw latRaw : ℚ)
    (sid : ℕ)
    (hc : f.coords = some (lngRaw, latRaw))
    (he : resolveExternalId f ≠ "")
    (hs : (upsertShark db (resolveExternalId f) f.name f.species).2 = sid) :
    (lastPosition db sid = none →
      (processFeature noFail db f).2 = 1 ∧
      (processFeature noFail db f).1.positions = db.positions ++
        [⟨sid, roundCoord latRaw, roundCoord lngRaw,
          featureSourceTimestamp f, db.clock + 1⟩]) ∧
    (∀ p, lastPosition db sid = some p →
      (((processFeature noFail db f).2 = 1 ↔
          (roundCoord latRaw ≠ roundCoord p.lat ∨
           roundCoord lngRaw ≠ roundCoord p.lng)) ∧
       ((roundCoord latRaw = roundCoord p.lat ∧
         roundCoord lngRaw = roundCoord p.lng) →
        (processFeature noFail db f).1.positions = db.positions))) := by
  have hpos := upsertShark_positions db (resolveExternalId f) f.name f.species
  have hclk := upsertShark_clock db (resolveExternalId f) f.name f.species
  have hstep := processFeature_noFail_eq db f lngRaw latRaw
    (upsertShark db (resolveExternalId f) f.name f.species) hc he rfl
  have hlast : lastPosition
      (upsertShark db (resolveExternalId f) f.name f.species).1
      (upsertShark db (resolveExternalId f) f.name f.species).2
      = lastPosition db sid := by
    rw [lastPosition, hpos, hs]; rfl
  rw [hlast] at hstep
  constructor
  · intro hnone
    rw [hnone] at hstep
    simp only [hasMoved, if_true] at hstep
    rw [hstep]
    simp [newPositionRow, hpos, hclk, hs]
  · intro p hp
    rw [hp] at hstep
    simp only [hasMoved] at hstep
    by_cases h1 : roundCoord p.lat = roundCoord latRaw <;>
      by_cases h2 : roundCoord p.lng = roundCoord lngRaw
    · have hcond : (decide (roundCoord p.lat ≠ roundCoord latRaw) ||
          decide (roundCoord p.lng ≠ roundCoord lngRaw)) = false := by
        simp [h1, h2]
      rw [hcond, if_neg Bool.false_ne_true] at hstep
      rw [hstep]
      constructor
      · simp only [Nat.zero_ne_one, false_iff]
        push_neg
        exact ⟨h1.symm, h2.symm⟩
      · intro _; exact hpos
    · have hcond : (decide (roundCoord p.lat ≠ roundCoord latRaw) ||
          decide (roundCoord p.lng ≠ roundCoord lngRaw)) = true := by
        simp [h2]
      rw [hcond, if_pos rfl] at hstep
      rw [hstep]
      refine ⟨by simp only [true_iff]; exact Or.inr fun hx => h2 hx.symm, ?_⟩
      rintro ⟨-, hx⟩; exact absurd hx.symm h2
    · have hcond : (decide (roundCoord p.lat ≠ roundCoord latRaw) ||
          decide (roundCoord p.lng ≠ roundCoord lngRaw)) = true := by
        simp [h1]
      rw [hcond, if_pos rfl] at hstep
      rw [hstep]
      refine ⟨by simp only [true_iff]; exact Or.inl fun hx => h1 hx.symm, ?_⟩
      rintro ⟨hx, -⟩; exact absurd hx.symm h1
    · have hcond : (decide (roundCoord p.lat ≠ roundCoord latRaw) ||
          decide (roundCoord p.lng ≠ roundCoord lngRaw)) = true := by
        simp [h1]
      rw [hcond, if_pos rfl] at hstep
      rw [hstep]
      refine ⟨by simp only [true_iff]; exact Or.inl fun hx => h1 hx.symm, ?_⟩
      rintro ⟨hx, -⟩; exact absurd hx.symm h1

/-- Witness for C1: a fresh entity (no stored position) gets its first
position inserted. -/
theorem C1_movement_detection_witness :
    (processFeature noFail ⟨[], [], 1, 0⟩
      ⟨some (2, 3), some "42", none, none, none, none, none⟩).2 = 1 := by
  have h := C1_movement_detection ⟨[], [], 1, 0⟩
    ⟨some (2, 3), some "42", none, none, none, none, none⟩ 2 3 1
    rfl (by decide) (by decide)
  exact (h.1 rfl).1

/-! ### Composition of the pass -/

theorem foldl_passStep_shift_fst (feed : List (Feature × FailSpec)) :
    ∀ (db : DB) (n : ℕ),
      (feed.foldl passStep (db, n)).1 = (feed.foldl passStep (db, 0)).1 := by
  induction feed with
  | nil => intro db n; rfl
  | cons ff rest ih =>
      intro db n
      simp only [List.foldl_cons, passStep]
      rw [ih ((processFeature ff.2 db ff.1).1) (n + (processFeature ff.2 db ff.1).2),
        ih ((processFeature ff.2 db ff.1).1) (0 + (processFeature ff.2 db ff.1).2)]

theorem foldl_passStep_shift_snd (feed : List (Feature × FailSpec)) :
    ∀ (db : DB) (n : ℕ),
      (feed.foldl passStep (db, n)).2 = n + (feed.foldl passStep (db, 0)).2 := by
  induction feed with
  | nil => intro db n; simp
  | cons ff rest ih =>
      intro db n
      simp only [List.foldl_cons, passStep]
      rw [ih ((processFeature ff.2 db ff.1).1) (n + (processFeature ff.2 db ff.1).2),
        ih ((processFeature ff.2 db ff.1).1) (0 + (processFeature ff.2 db ff.1).2)]
      omega

theorem runPass_nil (db : DB) : runPass db [] = (db, 0) := rfl

theorem runPass_cons (db : DB) (ff : Feature × FailSpec)
    (rest : List (Feature × FailSpec)) :
    runPass db (ff :: rest) =
      ((runPass (processFeature ff.2 db ff.1).1 rest).1,
        (processFeature ff.2 db ff.1).2 +
          (runPass (processFeature ff.2 db ff.1).1 rest).2) := by
  have h1 := foldl_passStep_shift_fst rest
    ((processFeature ff.2 db ff.1).1) (0 + (processFeature ff.2 db ff.1).2)
  have h2 := foldl_passStep_shift_snd rest
    ((processFeature ff.2 db ff.1).1) (0 + (processFeature ff.2 db ff.1).2)
  simp only [runPass, List.foldl_cons, passStep]
  rw [Prod.ext_iff]
  exact ⟨h1, by rw [h2]; omega⟩

theorem runPass_append (db : DB) (l1 l2 : List (Feature × FailSpec)) :
    runPass db (l1 ++ l2) =
      ((runPass (runPass db l1).1 l2).1,
        (runPass db l1).2 + (runPass (runPass db l1).1 l2).2) := by
  have h1 := foldl_passStep_shift_fst l2
    ((List.foldl passStep (db, 0) l1).1) ((List.foldl passStep (db, 0) l1).2)
  have h2 := foldl_passStep_shift_snd l2
    ((List.foldl passStep (db, 0) l1).1) ((List.foldl passStep (db, 0) l1).2)
  simp only [runPass, List.foldl_append]
  rw [Prod.ext_iff]
  exact ⟨h1, h2⟩

/-! ### Branch analysis of one step -/

/-- Whatever happens in a step, the position table only grows by the
reported number of inserted rows. -/
theorem processFeature_length (fs : FailSpec) (db : DB) (f : Feature) :
    (processFeature fs db f).1.positions.length =
      db.positions.length + (processFeature fs db f).2 := by
  unfold processFeature
  rcases hc : f.coords with _ | ⟨lngRaw, latRaw⟩
  · simp
  · simp only
    split_ifs <;>
      simp [upsertShark_positions]

/-- A step in which the upsert, the last-position fetch, or the insert
fails reports no insert. -/
theorem processFeature_fail_count (fs : FailSpec) (db : DB) (f : Feature)
    (h : fs.upsertFails = true ∨ fs.lastPosFails = true ∨
      fs.insertFails = true) :
    (processFeature fs db f).2 = 0 := by
  unfold processFeature
  rcases hc : f.coords with _ | ⟨lngRaw, latRaw⟩
  · simp
  · simp only
    split_ifs with h1 h2 h3 h4 h5 <;> first
      | rfl
      | (exfalso; rcases h with h | h | h <;> simp_all)

/-- A step in which the upsert, the last-position fetch, or the insert
fails leaves the stored position history unchanged. -/
theorem processFeature_fail_positions (fs : FailSpec) (db : DB) (f : Feature)
    (h : fs.upsertFails = true ∨ fs.lastPosFails = true ∨
      fs.insertFails = true) :
    (processFeature fs db f).1.positions = db.positions := by
  unfold processFeature
  rcases hc : f.coords with _ | ⟨lngRaw, latRaw⟩
  · simp
  · simp only
    split_ifs with h1 h2 h3 h4 h5 <;> first
      | rfl
      | exact upsertShark_positions db (resolveExternalId f) f.name f.species
      | (exfalso; rcases h with h | h | h <;> simp_all)

/-- A step on a feature with no usable identity (or no coordinates) does
nothing at all. -/
theorem processFeature_skip (fs : FailSpec) (db : DB) (f : Feature)
    (h : resolveExternalId f = "" ∨ f.coords = none) :
    processFeature fs db f = (db, 0) := by
  unfold processFeature
  rcases hc : f.coords with _ | ⟨lngRaw, latRaw⟩
  · simp
  · rcases h with h | h
    · simp [h]
    · rw [hc] at h; cases h

/-- **C4 counterexample.** A feature whose `id` property is present but is
the empty string, while its `slug` is the non-empty `"slug-1"`, is
discarded by the pass (state unchanged, nothing inserted, no entity
created), although the claim says a feature is discarded only when all of
id, slug and display name are absent or empty. -/
theorem C4_counterexample :
    processFeature noFail (⟨[], [], 1, 0⟩ : DB)
        (⟨some (0, 0), some "", some "slug-1", none, none, none, none⟩ :
          Feature) =
      ((⟨[], [], 1, 0⟩ : DB), 0) ∧
    (⟨some (0, 0), some "", some "slug-1", none, none, none, none⟩ :
        Feature).slug = some "slug-1" ∧
    resolveExternalId
        (⟨some (0, 0), some "", some "slug-1", none, none, none, none⟩ :
          Feature) = "" := by
  refine ⟨?_, rfl, rfl⟩
  exact processFeature_skip _ _ _ (Or.inl rfl)

/-- **C4 (amended).** Identity resolution coalesces explicit id, then
slug, then display name, falling through only on *absent* (null/undefined)
fields — a present-but-empty id does not fall through to the slug. The
feature is discarded exactly when the coalesced result is the empty
string: the first present field in the chain is the empty string, or all
three are absent. The discard is a silent skip: the stored state is
untouched, the step reports no insert, and the rest of the pass runs
exactly as if the feature were not in the feed. -/
theorem C4_identity_resolution (fs : FailSpec) (db : DB) (f : Feature) :
    (resolveExternalId f = "" ↔
      (f.propId = some "" ∨
        (f.propId = none ∧ (f.slug = some "" ∨
          (f.slug = none ∧ (f.name = some "" ∨ f.name = none)))))) ∧
    (resolveExternalId f = "" →
      processFeature fs db f = (db, 0) ∧
      ∀ pre suf, runPass db (pre ++ (f, fs) :: suf) = runPass db (pre ++ suf)) := by
  constructor
  · rcases hid : f.propId with _ | i <;> rcases hslug : f.slug with _ | s <;>
      rcases hname : f.name with _ | n <;>
        simp [resolveExternalId, hid, hslug, hname, Option.orElse]
  · intro he
    refine ⟨processFeature_skip fs db f (Or.inl he), fun pre suf => ?_⟩
    rw [runPass_append, runPass_append, runPass_cons]
    simp [processFeature_skip fs ((runPass db pre).1) f (Or.inl he)]

/-- Witness for C4 (amended): a feature with only a display name resolves
to it and is processed; one with every identity field absent is skipped. -/
theorem C4_identity_resolution_witness :
    resolveExternalId (⟨some (0, 0), none, none, none, none, none, none⟩ :
      Feature) = "" ∧
    processFeature noFail (⟨[], [], 1, 0⟩ : DB)
      (⟨some (0, 0), none, none, none, none, none, none⟩ : Feature) =
      ((⟨[], [], 1, 0⟩ : DB), 0) :=
  ⟨rfl, ((C4_identity_resolution noFail ⟨[], [], 1, 0⟩
      ⟨some (0, 0), none, none, none, none, none, none⟩).2 rfl).1⟩

/-- **C5.** Per-entity storage failures are isolated within a sync pass:
a feature whose upsert, last-position fetch, or position insert fails
contributes no insert and leaves the position history unchanged; the pass
never aborts — it always continues with the features after the failing
one, compositionally; and the reported count equals the number of
successfully inserted position rows. -/
theorem C5_failure_isolation :
    (∀ (fs : FailSpec) (db : DB) (f : Feature),
      (fs.upsertFails = true ∨ fs.lastPosFails = true ∨
        fs.insertFails = true) →
      (processFeature fs db f).2 = 0 ∧
      (processFeature fs db f).1.positions = db.positions) ∧
    (∀ (db : DB) (pre suf : List (Feature × FailSpec))
        (f : Feature) (fs : FailSpec),
      runPass db (pre ++ (f, fs) :: suf) =
        ((runPass (processFeature fs (runPass db pre).1 f).1 suf).1,
          (runPass db pre).2 + ((processFeature fs (runPass db pre).1 f).2 +
            (runPass (processFeature fs (runPass db pre).1 f).1 suf).2))) ∧
    (∀ (db : DB) (feed : List (Feature × FailSpec)),
      (runPass db feed).1.positions.length =
        db.positions.length + (runPass db feed).2) := by
  refine ⟨fun fs db f h => ⟨processFeature_fail_count fs db f h,
    processFeature_fail_positions fs db f h⟩, ?_, ?_⟩
  · intro db pre suf f fs
    rw [runPass_append, runPass_cons]
  · intro db feed
    induction feed generalizing db with
    | nil => simp [runPass_nil]
    | cons ff rest ih =>
        rw [runPass_cons]
        simp only
        rw [ih ((processFeature ff.2 db ff.1).1),
          processFeature_length ff.2 db ff.1]
        omega

/-- Witness for C5: in a two-feature feed where the first feature's upsert
fails and the second succeeds, the pass still inserts the second entity's
position and reports exactly 1. -/
theorem C5_failure_isolation_witness :
    (processFeature ⟨true, false, false⟩ (⟨[], [], 1, 0⟩ : DB)
        (⟨some (0, 0), some "A", none, none, none, none, none⟩ : Feature)).2 = 0 ∧
    (runPass (⟨[], [], 1, 0⟩ : DB)
        [(⟨some (0, 0), some "A", none, none, none, none, none⟩,
            (⟨true, false, false⟩ : FailSpec)),
         (⟨some (0, 1), some "B", none, none, none, none, none⟩, noFail)]).2
      = 1 := by
  constructor
  · exact ((C5_failure_isolation.1 ⟨true, false, false⟩ ⟨[], [], 1, 0⟩
      ⟨some (0, 0), some "A", none, none, none, none, none⟩) (Or.inl rfl)).1
  · decide

/-! ### Rounding is idempotent -/

theorem jsRound_intCast (n : ℤ) : jsRound (n : ℚ) = n := by
  unfold jsRound
  rw [Int.floor_int_add]
  norm_num

theorem roundCoord_idem (v : ℚ) : roundCoord (roundCoord v) = roundCoord v := by
  unfold roundCoord
  rw [div_mul_cancel₀ _ (by norm_num : (100000 : ℚ) ≠ 0), jsRound_intCast]

/-! ### The latest-row query -/

theorem foldl_latestBy_mem (l : List PositionRow) :
    ∀ (acc : Option PositionRow) (q : PositionRow),
      l.foldl latestBy acc = some q → q ∈ l ∨ acc = some q := by
  induction l with
  | nil => intro acc q h; exact Or.inr h
  | cons p xs ih =>
      intro acc q h
      rcases ih (latestBy acc p) q h with hq | hq
      · exact Or.inl (List.mem_cons_of_mem _ hq)
      · rcases acc with _ | a
        · simp only [latestBy] at hq
          exact Or.inl ((Option.some_inj.mp hq) ▸ List.mem_cons_self p xs)
        · simp only [latestBy] at hq
          split_ifs at hq with hlt
          · exact Or.inl ((Option.some_inj.mp hq) ▸ List.mem_cons_self p xs)
          · exact Or.inr hq

theorem lastPositionOf_mem (ps : List PositionRow) (sid : ℕ) (q : PositionRow)
    (h : lastPositionOf ps sid = some q) : q ∈ ps ∧ q.shark_id = sid := by
  unfold lastPositionOf at h
  rcases foldl_latestBy_mem _ _ _ h with hq | hq
  · have h1 := List.mem_filter.mp hq
    exact ⟨h1.1, by simpa using h1.2⟩
  · simp at hq

theorem lastPositionOf_append_other (ps : List PositionRow) (row : PositionRow)
    (sid : ℕ) (h : row.shark_id ≠ sid) :
    lastPositionOf (ps ++ [row]) sid = lastPositionOf ps sid := by
  unfold lastPositionOf
  rw [List.filter_append]
  have hrow : List.filter (fun p => p.shark_id == sid) [row] = [] := by
    simp [h]
  rw [hrow, List.append_nil]

theorem lastPositionOf_append_self (ps : List PositionRow) (row : PositionRow)
    (sid : ℕ) (hsid : row.shark_id = sid)
    (hlt : ∀ p ∈ ps, p.created_at < row.created_at) :
    lastPositionOf (ps ++ [row]) sid = some row := by
  unfold lastPositionOf
  rw [List.filter_append]
  have hrow : List.filter (fun p => p.shark_id == sid) [row] = [row] := by
    simp [hsid]
  rw [hrow, List.foldl_append]
  rcases hacc : (List.filter (fun p => p.shark_id == sid) ps).foldl
      latestBy none with _ | a
  · rw [hacc]; rfl
  · have ha : a ∈ ps := by
      rcases foldl_latestBy_mem _ _ _ hacc with h1 | h1
      · exact (List.mem_filter.mp h1).1
      · simp at h1
    rw [hacc]
    simp only [List.foldl_cons, List.foldl_nil, latestBy]
    rw [if_pos (hlt a ha)]

/-! ### The upsert and identity resolution -/

theorem upsertShark_snd_existing (db : DB) (e : String) (nm sp : Option String)
    (r : SharkRow)
    (hfind : db.sharks.find? (fun s => s.external_id == e) = some r) :
    (upsertShark db e nm sp).2 = r.id := by
  unfold upsertShark
  rw [hfind]

theorem upsertShark_new (db : DB) (e : String) (nm sp : Option String)
    (hfind : db.sharks.find? (fun s => s.external_id == e) = none) :
    (upsertShark db e nm sp).1.sharks = db.sharks ++ [newSharkRow db e nm sp] ∧
    (upsertShark db e nm sp).2 = db.nextId ∧
    (upsertShark db e nm sp).1.nextId = db.nextId + 1 := by
  unfold upsertShark
  rw [hfind]
  exact ⟨rfl, rfl, rfl⟩

theorem upsertShark_sharks_existing (db : DB) (e : String)
    (nm sp : Option String) (r : SharkRow)
    (hfind : db.sharks.find? (fun s => s.external_id == e) = some r) :
    (upsertShark db e nm sp).1.sharks = db.sharks.map fun s =>
      if s.external_id == e then
        { s with name := nm, species := sp, updated_at := db.clock }
      else s := by
  unfold upsertShark
  rw [hfind]

theorem upsertShark_nextId_existing (db : DB) (e : String)
    (nm sp : Option String) (r : SharkRow)
    (hfind : db.sharks.find? (fun s => s.external_id == e) = some r) :
    (upsertShark db e nm sp).1.nextId = db.nextId := by
  unfold upsertShark
  rw [hfind]

theorem sharkIdFor_upsert_existing (db : DB) (e : String)
    (nm sp : Option String) (r : SharkRow)
    (hfind : db.sharks.find? (fun s => s.external_id == e) = some r) :
    ∀ e', sharkIdFor (upsertShark db e nm sp).1 e' = sharkIdFor db e' := by
  intro e'
  unfold sharkIdFor
  rw [upsertShark_sharks_existing db e nm sp r hfind, List.find?_map]
  have hpred : ((fun s : SharkRow => s.external_id == e') ∘ fun s =>
      if s.external_id == e then
        { s with name := nm, species := sp, updated_at := db.clock }
      else s) = fun s : SharkRow => s.external_id == e' := by
    funext x
    by_cases hx : x.external_id = e <;> simp [hx]
  rw [hpred]
  rcases hfa : db.sharks.find? (fun s : SharkRow => s.external_id == e')
    with _ | a
  · rfl
  · by_cases ha : a.external_id = e <;> simp [ha]

theorem sharkIdFor_upsert_new_other (db : DB) (e : String)
    (nm sp : Option String) (e' : String)
    (hfind : db.sharks.find? (fun s => s.external_id == e) = none)
    (hne : e' ≠ e) :
    sharkIdFor (upsertShark db e nm sp).1 e' = sharkIdFor db e' := by
  unfold sharkIdFor
  rw [(upsertShark_new db e nm sp hfind).1, List.find?_append]
  have hone : List.find? (fun s : SharkRow => s.external_id == e')
      [newSharkRow db e nm sp] = none := by
    rw [List.find?_eq_none]
    intro x hx hpx
    rw [List.mem_singleton] at hx
    subst hx
    have hee : e = e' := by simpa [newSharkRow] using hpx
    exact hne hee.symm
  rw [hone]
  rcases hfa : db.sharks.find? (fun s : SharkRow => s.external_id == e')
    with _ | a <;> simp

theorem sharkIdFor_upsert_self (db : DB) (e : String) (nm sp : Option String) :
    sharkIdFor (upsertShark db e nm sp).1 e =
      some (upsertShark db e nm sp).2 := by
  rcases hfind : db.sharks.find? (fun s => s.external_id == e) with _ | r
  · have hnew := upsertShark_new db e nm sp hfind
    unfold sharkIdFor
    rw [hnew.1, List.find?_append, hfind, hnew.2.1]
    have : List.find? (fun s : SharkRow => s.external_id == e)
        [newSharkRow db e nm sp] = some (newSharkRow db e nm sp) := by
      simp [newSharkRow]
    rw [this]
    simp [newSharkRow]
  · rw [sharkIdFor_upsert_existing db e nm sp r hfind,
      upsertShark_snd_existing db e nm sp r hfind]
    unfold sharkIdFor
    rw [hfind]
    rfl

theorem sharkIdFor_upsert_other (db : DB) (e : String) (nm sp : Option String)
    (e' : String) (hne : e' ≠ e) :
    sharkIdFor (upsertShark db e nm sp).1 e' = sharkIdFor db e' := by
  rcases hfind : db.sharks.find? (fun s => s.external_id == e) with _ | r
  · exact sharkIdFor_upsert_new_other db e nm sp e' hfind hne
  · exact sharkIdFor_upsert_existing db e nm sp r hfind e'

theorem sharkIdFor_inj (db : DB) (hnd : (db.sharks.map SharkRow.id).Nodup)
    (e1 e2 : String) (s1 s2 : ℕ) (h1 : sharkIdFor db e1 = some s1)
    (h2 : sharkIdFor db e2 = some s2) (hne : e1 ≠ e2) : s1 ≠ s2 := by
  unfold sharkIdFor at h1 h2
  rcases hf1 : db.sharks.find? (fun s => s.external_id == e1) with _ | r1 <;>
    rw [hf1] at h1
  · simp at h1
  rcases hf2 : db.sharks.find? (fun s => s.external_id == e2) with _ | r2 <;>
    rw [hf2] at h2
  · simp at h2
  have hid1 : r1.id = s1 := by simpa using h1
  have hid2 : r2.id = s2 := by simpa using h2
  have hm1 := List.mem_of_find?_eq_some hf1
  have hm2 := List.mem_of_find?_eq_some hf2
  have hp1 : r1.external_id = e1 := by simpa using List.find?_some hf1
  have hp2 : r2.external_id = e2 := by simpa using List.find?_some hf2
  intro heq
  have hreq : r1 = r2 := List.inj_on_of_nodup_map hnd hm1 hm2
    (by rw [hid1, hid2, heq])
  exact hne (by rw [← hp1, ← hp2, hreq])

/-! ### Well-formedness is preserved -/

theorem WF_upsert (db : DB) (e : String) (nm sp : Option String)
    (hwf : WF db) : WF (upsertShark db e nm sp).1 := by
  obtain ⟨hnd, hlt, hpos⟩ := hwf
  rcases hfind : db.sharks.find? (fun s => s.external_id == e) with _ | r
  · have hnew := upsertShark_new db e nm sp hfind
    refine ⟨?_, ?_, ?_⟩
    · rw [hnew.1, List.map_append]
      rw [List.nodup_append]
      refine ⟨hnd, by simp, ?_⟩
      intro a ha hb
      simp only [newSharkRow, List.map_cons, List.map_nil,
        List.mem_singleton] at hb
      subst hb
      obtain ⟨s, hs, hsa⟩ := List.mem_map.mp ha
      exact absurd hsa (Nat.ne_of_lt (hlt s hs))
    · intro x hx
      rw [hnew.1] at hx
      rw [hnew.2.2]
      rcases List.mem_append.mp hx with hx | hx
      · exact lt_trans (hlt x hx) (Nat.lt_succ_self _)
      · rw [List.mem_singleton] at hx
        subst hx
        simp [newSharkRow]
    · intro p hp
      rw [upsertShark_positions] at hp
      rw [upsertShark_clock]
      have := hpos p hp
      omega
  · refine ⟨?_, ?_, ?_⟩
    · rw [upsertShark_sharks_existing db e nm sp r hfind, List.map_map]
      have hcomp : (SharkRow.id ∘ fun s : SharkRow =>
          if s.external_id == e then
            { s with name := nm, species := sp, updated_at := db.clock }
          else s) = SharkRow.id := by
        funext x
        by_cases hx : x.external_id = e <;> simp [hx]
      rw [hcomp]
      exact hnd
    · intro x hx
      rw [upsertShark_sharks_existing db e nm sp r hfind] at hx
      rw [upsertShark_nextId_existing db e nm sp r hfind]
      obtain ⟨s, hs, hsx⟩ := List.mem_map.mp hx
      have hlt' := hlt s hs
      subst hsx
      by_cases h2 : s.external_id = e <;> simp [h2] <;> omega
    · intro p hp
      rw [upsertShark_positions] at hp
      rw [upsertShark_clock]
      have := hpos p hp
      omega

theorem WF_processFeature (fs : FailSpec) (db : DB) (f : Feature)
    (hwf : WF db) : WF (processFeature fs db f).1 := by
  unfold processFeature
  rcases hc : f.coords with _ | ⟨lngRaw, latRaw⟩
  · exact hwf
  · simp only
    split_ifs with h1 h2 h3 h4 h5
    · exact hwf
    · exact hwf
    · exact WF_upsert db _ f.name f.species hwf
    · exact WF_upsert db _ f.name f.species hwf
    · have hwfu := WF_upsert db (resolveExternalId f) f.name f.species hwf
      obtain ⟨hnd, hlt, hpos⟩ := hwfu
      refine ⟨hnd, hlt, ?_⟩
      intro p hp
      simp only [List.mem_append, List.mem_singleton] at hp
      rcases hp with hp | hp
      · have := hpos p hp
        simp only
        omega
      · subst hp
        simp only [newPositionRow]
        omega
    · exact WF_upsert db _ f.name f.species hwf

/-! ### Settledness: the state in which the detector reports no movement -/

theorem usable_false_iff (f : Feature) :
    usable f = false ↔ f.coords = none ∨ resolveExternalId f = "" := by
  unfold usable
  rcases hc : f.coords with _ | c <;> simp [hc]

theorem settled_after_process (db : DB) (f : Feature) (hwf : WF db) :
    settled (processFeature noFail db f).1 f := by
  rcases hc : f.coords with _ | ⟨lngRaw, latRaw⟩
  · intro c hcc _
    rw [hc] at hcc
    cases hcc
  by_cases he : resolveExternalId f = ""
  · intro c _ he'
    exact absurd he he'
  intro c hcc he'
  rw [hc] at hcc
  injection hcc with hcc
  subst hcc
  have hstep := processFeature_noFail_eq db f lngRaw latRaw
    (upsertShark db (resolveExternalId f) f.name f.species) hc he rfl
  have hwfu := WF_upsert db (resolveExternalId f) f.name f.species hwf
  cases hm : hasMoved
      (lastPosition (upsertShark db (resolveExternalId f) f.name f.species).1
        (upsertShark db (resolveExternalId f) f.name f.species).2)
      (roundCoord latRaw) (roundCoord lngRaw) with
  | false =>
      rw [hm, if_neg Bool.false_ne_true] at hstep
      rcases hlp : lastPosition
          (upsertShark db (resolveExternalId f) f.name f.species).1
          (upsertShark db (resolveExternalId f) f.name f.species).2
        with _ | p
      · rw [hlp] at hm
        simp [hasMoved] at hm
      · rw [hlp] at hm
        simp only [hasMoved, Bool.or_eq_false_iff, decide_eq_false_iff_not,
          not_not] at hm
        rw [hstep]
        exact ⟨(upsertShark db (resolveExternalId f) f.name f.species).2,
          sharkIdFor_upsert_self db _ f.name f.species,
          p, hlp, by simpa using hm.1, by simpa using hm.2⟩
  | true =>
      rw [hm, if_pos rfl] at hstep
      rw [hstep]
      refine ⟨(upsertShark db (resolveExternalId f) f.name f.species).2,
        sharkIdFor_upsert_self db _ f.name f.species, ?_⟩
      refine ⟨newPositionRow
          (upsertShark db (resolveExternalId f) f.name f.species).1
          (upsertShark db (resolveExternalId f) f.name f.species).2
          (roundCoord latRaw) (roundCoord lngRaw) f, ?_, ?_, ?_⟩
      · show lastPositionOf _ _ = _
        exact lastPositionOf_append_self _ _ _ rfl
          (fun p hp => hwfu.2.2 p hp)
      · simp only [newPositionRow]
        exact roundCoord_idem latRaw
      · simp only [newPositionRow]
        exact roundCoord_idem lngRaw

theorem settled_preserved (fs : FailSpec) (db : DB) (f g : Feature)
    (hwf : WF db)
    (hdiff : usable g = false ∨ usable f = false ∨
      resolveExternalId g ≠ resolveExternalId f)
    (hset : settled db f) :
    settled (processFeature fs db g).1 f := by
  rcases hdiff with hdiff | hdiff | hdiff
  · rw [processFeature_skip fs db g
      (Or.symm ((usable_false_iff g).mp hdiff))]
    exact hset
  · intro c hcc hef
    rcases (usable_false_iff f).mp hdiff with hfc | hfe
    · rw [hfc] at hcc; cases hcc
    · exact absurd hfe hef
  rcases hgc : g.coords with _ | ⟨glng, glat⟩
  · rw [processFeature_skip fs db g (Or.inr hgc)]
    exact hset
  by_cases hge : resolveExternalId g = ""
  · rw [processFeature_skip fs db g (Or.inl hge)]
    exact hset
  intro c hcc hef
  obtain ⟨sid, hsid, p, hp, hl1, hl2⟩ := hset c hcc hef
  have hpres : sharkIdFor (upsertShark db (resolveExternalId g)
      g.name g.species).1 (resolveExternalId f) =
      sharkIdFor db (resolveExternalId f) :=
    sharkIdFor_upsert_other db _ g.name g.species _ (Ne.symm hdiff)
  have hwfu := WF_upsert db (resolveExternalId g) g.name g.species hwf
  have hsidne : (upsertShark db (resolveExternalId g) g.name g.species).2
      ≠ sid := by
    apply sharkIdFor_inj
      (upsertShark db (resolveExternalId g) g.name g.species).1 hwfu.1
      (resolveExternalId g) (resolveExternalId f)
    · exact sharkIdFor_upsert_self db _ g.name g.species
    · rw [hpres]; exact hsid
    · exact hdiff
  unfold processFeature
  rw [hgc]
  simp only
  split_ifs with h1 h2 h3 h4
  · exact ⟨sid, hsid, p, hp, hl1, hl2⟩
  · refine ⟨sid, hpres.trans hsid, p, ?_, hl1, hl2⟩
    show lastPositionOf (upsertShark db (resolveExternalId g)
      g.name g.species).1.positions sid = some p
    rw [upsertShark_positions]
    exact hp
  · refine ⟨sid, hpres.trans hsid, p, ?_, hl1, hl2⟩
    show lastPositionOf (upsertShark db (resolveExternalId g)
      g.name g.species).1.positions sid = some p
    rw [upsertShark_positions]
    exact hp
  · refine ⟨sid, hpres.trans hsid, p, ?_, hl1, hl2⟩
    show lastPositionOf ((upsertShark db (resolveExternalId g)
        g.name g.species).1.positions ++
      [newPositionRow (upsertShark db (resolveExternalId g)
          g.name g.species).1
        (upsertShark db (resolveExternalId g) g.name g.species).2
        (roundCoord glat) (roundCoord glng) g]) sid = some p
    rw [lastPositionOf_append_other _ _ _ hsidne, upsertShark_positions]
    exact hp
  · refine ⟨sid, hpres.trans hsid, p, ?_, hl1, hl2⟩
    show lastPositionOf (upsertShark db (resolveExternalId g)
      g.name g.species).1.positions sid = some p
    rw [upsertShark_positions]
    exact hp

theorem settled_noop (db : DB) (f : Feature) (hset : settled db f) :
    (processFeature noFail db f).2 = 0 ∧
    (processFeature noFail db f).1.positions = db.positions ∧
    (∀ h : Feature, settled db h → settled (processFeature noFail db f).1 h) := by
  rcases hc : f.coords with _ | ⟨lngRaw, latRaw⟩
  · rw [processFeature_skip noFail db f (Or.inr hc)]
    exact ⟨rfl, rfl, fun _ hs => hs⟩
  by_cases he : resolveExternalId f = ""
  · rw [processFeature_skip noFail db f (Or.inl he)]
    exact ⟨rfl, rfl, fun _ hs => hs⟩
  obtain ⟨sid, hsid, p, hp, hlat, hlng⟩ := hset (lngRaw, latRaw) hc he
  have hfind : ∃ rf, db.sharks.find?
      (fun s => s.external_id == resolveExternalId f) = some rf ∧
      rf.id = sid := by
    unfold sharkIdFor at hsid
    rcases hf : db.sharks.find?
        (fun s => s.external_id == resolveExternalId f) with _ | rf <;>
      rw [hf] at hsid
    · simp at hsid
    · exact ⟨rf, hf, by simpa using hsid⟩
  obtain ⟨rf, hf, hrfid⟩ := hfind
  have hsnd : (upsertShark db (resolveExternalId f) f.name f.species).2
      = sid := by
    rw [upsertShark_snd_existing db _ f.name f.species rf hf, hrfid]
  have hposu := upsertShark_positions db (resolveExternalId f) f.name f.species
  have hstep := processFeature_noFail_eq db f lngRaw latRaw
    (upsertShark db (resolveExternalId f) f.name f.species) hc he rfl
  have hlp : lastPosition
      (upsertShark db (resolveExternalId f) f.name f.species).1
      (upsertShark db (resolveExternalId f) f.name f.species).2 = some p := by
    rw [lastPosition, hposu, hsnd]
    exact hp
  have hm : hasMoved (some p) (roundCoord latRaw) (roundCoord lngRaw)
      = false := by
    simp [hasMoved, hlat, hlng]
  rw [hlp, hm, if_neg Bool.false_ne_true] at hstep
  rw [hstep]
  refine ⟨rfl, hposu, ?_⟩
  intro h hs c hcc heh
  obtain ⟨sidh, hsidh, ph, hph, hq1, hq2⟩ := hs c hcc heh
  refine ⟨sidh, ?_, ph, ?_, hq1, hq2⟩
  · exact (sharkIdFor_upsert_existing db _ f.name f.species rf hf
      (resolveExternalId h)).trans hsidh
  · show lastPositionOf (upsertShark db (resolveExternalId f)
      f.name f.species).1.positions sidh = some ph
    rw [upsertShark_positions]
    exact hph

/-! ### Idempotence of repeated identical passes -/

theorem refresh_cons_fst (db : DB) (g : Feature) (rest : List Feature) :
    (refreshSharkPositions db (g :: rest)).1 =
      (refreshSharkPositions (processFeature noFail db g).1 rest).1 := by
  simp only [refreshSharkPositions, List.map_cons]
  rw [runPass_cons]

theorem refresh_cons_snd (db : DB) (g : Feature) (rest : List Feature) :
    (refreshSharkPositions db (g :: rest)).2 =
      (processFeature noFail db g).2 +
        (refreshSharkPositions (processFeature noFail db g).1 rest).2 := by
  simp only [refreshSharkPositions, List.map_cons]
  rw [runPass_cons]

theorem settled_through_pass (feed : List Feature) :
    ∀ (db : DB), WF db → ∀ f : Feature, settled db f →
      (∀ g ∈ feed, usable g = false ∨ usable f = false ∨
        resolveExternalId g ≠ resolveExternalId f) →
      settled (refreshSharkPositions db feed).1 f := by
  induction feed with
  | nil => intro db _ f hs _; exact hs
  | cons g rest ih =>
      intro db hwf f hs hall
      rw [refresh_cons_fst]
      exact ih (processFeature noFail db g).1
        (WF_processFeature noFail db g hwf) f
        (settled_preserved noFail db f g hwf
          (hall g (List.mem_cons_self g rest)) hs)
        (fun g' hg' => hall g' (List.mem_cons_of_mem g hg'))

theorem WF_refresh (feed : List Feature) :
    ∀ db : DB, WF db → WF (refreshSharkPositions db feed).1 := by
  induction feed with
  | nil => intro db hwf; exact hwf
  | cons g rest ih =>
      intro db hwf
      rw [refresh_cons_fst]
      exact ih _ (WF_processFeature noFail db g hwf)

theorem usableIds_cons (g : Feature) (rest : List Feature)
    (hnd : (usableIds (g :: rest)).Nodup) :
    (usableIds rest).Nodup ∧
    (usable g = true → ∀ f ∈ rest, usable f = true →
      resolveExternalId f ≠ resolveExternalId g) := by
  unfold usableIds at hnd ⊢
  cases hg : usable g with
  | false =>
      rw [List.filter_cons_of_neg (by simp [hg])] at hnd
      refine ⟨hnd, fun hgt => ?_⟩
      exact absurd hgt Bool.false_ne_true
  | true =>
      rw [List.filter_cons_of_pos (by simp [hg]), List.map_cons,
        List.nodup_cons] at hnd
      refine ⟨hnd.2, fun _ f hf hfu heq => hnd.1 ?_⟩
      exact List.mem_map.mpr ⟨f, List.mem_filter.mpr ⟨hf, hfu⟩, heq⟩

theorem all_settled_after (feed : List Feature) :
    ∀ db : DB, WF db → (usableIds feed).Nodup →
      ∀ f ∈ feed, settled (refreshSharkPositions db feed).1 f := by
  induction feed with
  | nil => intro db _ _ f hf; cases hf
  | cons g rest ih =>
      intro db hwf hnd f hf
      rcases List.mem_cons.mp hf with rfl | hf
      · rw [refresh_cons_fst]
        apply settled_through_pass rest _
          (WF_processFeature noFail db f hwf) f
          (settled_after_process db f hwf)
        intro g' hg'
        cases hfu : usable f with
        | false => exact Or.inr (Or.inl rfl)
        | true =>
            cases hg'u : usable g' with
            | false => exact Or.inl rfl
            | true =>
                exact Or.inr (Or.inr
                  ((usableIds_cons f rest hnd).2 hfu g' hg' hg'u))
      · rw [refresh_cons_fst]
        exact ih (processFeature noFail db g).1
          (WF_processFeature noFail db g hwf)
          (usableIds_cons g rest hnd).1 f hf

theorem second_pass_noop (feed : List Feature) :
    ∀ db : DB, (∀ f ∈ feed, settled db f) →
      (refreshSharkPositions db feed).2 = 0 ∧
      (refreshSharkPositions db feed).1.positions = db.positions := by
  induction feed with
  | nil => intro db _; exact ⟨rfl, rfl⟩
  | cons g rest ih =>
      intro db hall
      obtain ⟨h0, hpos, hpres⟩ :=
        settled_noop db g (hall g (List.mem_cons_self g rest))
      obtain ⟨ih0, ihpos⟩ := ih (processFeature noFail db g).1
        (fun f hf => hpres f (hall f (List.mem_cons_of_mem g hf)))
      constructor
      · rw [refresh_cons_snd, h0, ih0]
      · rw [refresh_cons_fst, ihpos, hpos]

theorem refresh_nil (db : DB) : refreshSharkPositions db [] = (db, 0) := rfl

theorem refresh_cons (db : DB) (g : Feature) (rest : List Feature) :
    refreshSharkPositions db (g :: rest) =
      ((refreshSharkPositions (processFeature noFail db g).1 rest).1,
        (processFeature noFail db g).2 +
          (refreshSharkPositions (processFeature noFail db g).1 rest).2) := by
  rw [Prod.ext_iff]
  exact ⟨refresh_cons_fst db g rest, refresh_cons_snd db g rest⟩

/-- **C2 counterexample.** Two failures of the claim as stated. First, a
feed that repeats the same external id `"A"` with two distinct rounded
coordinates inserts 2 rows again on the *second* pass over the identical
feed (each feature sees the other's position as the latest row and counts
as movement), not 0. Second, even for a one-feature feed whose second pass
inserts nothing, the second pass is not a no-op on stored state: the
upsert refreshes the entity's `updated_at`, so the sharks table differs. -/
theorem C2_counterexample :
    (refreshSharkPositions
        (refreshSharkPositions (⟨[], [], 1, 0⟩ : DB)
          [⟨some (0, 0), some "A", none, none, none, none, none⟩,
           ⟨some (1, 1), some "A", none, none, none, none, none⟩]).1
        [⟨some (0, 0), some "A", none, none, none, none, none⟩,
         ⟨some (1, 1), some "A", none, none, none, none, none⟩]).2 = 2 ∧
    (refreshSharkPositions
        (refreshSharkPositions (⟨[], [], 1, 0⟩ : DB)
          [⟨some (0, 0), some "A", none, none, none, none, none⟩]).1
        [⟨some (0, 0), some "A", none, none, none, none, none⟩]).1.sharks ≠
      (refreshSharkPositions (⟨[], [], 1, 0⟩ : DB)
        [⟨some (0, 0), some "A", none, none, none, none, none⟩]).1.sharks := by
  have hr0 : roundCoord 0 = 0 := by norm_num [roundCoord, jsRound]
  have hr1 : roundCoord 1 = 1 := by norm_num [roundCoord, jsRound]
  have hne : ((0 : ℚ) = 1) = False := by norm_num
  have hne' : ((1 : ℚ) = 0) = False := by norm_num
  have s1 : processFeature noFail (⟨[], [], 1, 0⟩ : DB)
      (⟨some (0, 0), some "A", none, none, none, none, none⟩ : Feature) =
      ((⟨[⟨1, "A", none, none, none, 0⟩], [⟨1, 0, 0, none, 1⟩], 2, 2⟩ : DB),
        1) := by
    simp [processFeature, resolveExternalId, upsertShark, newSharkRow,
      lastPosition, lastPositionOf, hasMoved, newPositionRow,
      featureSourceTimestamp, noFail, hr0]
  have s2 : processFeature noFail
      (⟨[⟨1, "A", none, none, none, 0⟩], [⟨1, 0, 0, none, 1⟩], 2, 2⟩ : DB)
      (⟨some (1, 1), some "A", none, none, none, none, none⟩ : Feature) =
      ((⟨[⟨1, "A", none, none, none, 2⟩],
        [⟨1, 0, 0, none, 1⟩, ⟨1, 1, 1, none, 3⟩], 2, 4⟩ : DB), 1) := by
    simp [processFeature, resolveExternalId, upsertShark, newSharkRow,
      lastPosition, lastPositionOf, hasMoved, newPositionRow, latestBy,
      featureSourceTimestamp, noFail, hr0, hr1, hne]
  have s3 : processFeature noFail
      (⟨[⟨1, "A", none, none, none, 2⟩],
        [⟨1, 0, 0, none, 1⟩, ⟨1, 1, 1, none, 3⟩], 2, 4⟩ : DB)
      (⟨some (0, 0), some "A", none, none, none, none, none⟩ : Feature) =
      ((⟨[⟨1, "A", none, none, none, 4⟩],
        [⟨1, 0, 0, none, 1⟩, ⟨1, 1, 1, none, 3⟩, ⟨1, 0, 0, none, 5⟩],
        2, 6⟩ : DB), 1) := by
    simp [processFeature, resolveExternalId, upsertShark, newSharkRow,
      lastPosition, lastPositionOf, hasMoved, newPositionRow, latestBy,
      featureSourceTimestamp, noFail, hr0, hr1, hne']
  have s4 : processFeature noFail
      (⟨[⟨1, "A", none, none, none, 4⟩],
        [⟨1, 0, 0, none, 1⟩, ⟨1, 1, 1, none, 3⟩, ⟨1, 0, 0, none, 5⟩],
        2, 6⟩ : DB)
      (⟨some (1, 1), some "A", none, none, none, none, none⟩ : Feature) =
      ((⟨[⟨1, "A", none, none, none, 6⟩],
        [⟨1, 0, 0, none, 1⟩, ⟨1, 1, 1, none, 3⟩, ⟨1, 0, 0, none, 5⟩,
         ⟨1, 1, 1, none, 7⟩], 2, 8⟩ : DB), 1) := by
    simp [processFeature, resolveExternalId, upsertShark, newSharkRow,
      lastPosition, lastPositionOf, hasMoved, newPositionRow, latestBy,
      featureSourceTimestamp, noFail, hr0, hr1, hne]
  have t1 : processFeature noFail
      (⟨[⟨1, "A", none, none, none, 0⟩], [⟨1, 0, 0, none, 1⟩], 2, 2⟩ : DB)
      (⟨some (0, 0), some "A", none, none, none, none, none⟩ : Feature) =
      ((⟨[⟨1, "A", none, none, none, 2⟩], [⟨1, 0, 0, none, 1⟩], 2, 3⟩ : DB),
        0) := by
    simp [processFeature, resolveExternalId, upsertShark, newSharkRow,
      lastPosition, lastPositionOf, hasMoved, newPositionRow, latestBy,
      featureSourceTimestamp, noFail, hr0]
  constructor
  · simp only [refresh_cons, refresh_nil, s1, s2, s3, s4]
  · simp only [refresh_cons, refresh_nil, s1, t1]
    decide

/-- **C2 (amended).** Provided the usable features of the feed resolve to
pairwise distinct external ids, running the sync pass twice against the
identical feed from a well-formed stored state is idempotent on the
position history: the second pass inserts 0 new PositionRecords and
leaves the stored position history unchanged. (It is *not* a no-op on
all stored state: the upsert refreshes each re-observed entity's
`updated_at`, and a feed repeating one external id with two distinct
rounded coordinates makes even the inserted count non-zero — see the
counterexample.) -/
theorem C2_second_pass_inserts_nothing (db0 : DB) (feed : List Feature)
    (hwf : WF db0) (hnd : (usableIds feed).Nodup) :
    (refreshSharkPositions (refreshSharkPositions db0 feed).1 feed).2 = 0 ∧
    (refreshSharkPositions (refreshSharkPositions db0 feed).1 feed).1.positions
      = (refreshSharkPositions db0 feed).1.positions :=
  second_pass_noop feed (refreshSharkPositions db0 feed).1
    (all_settled_after feed db0 hwf hnd)

/-- Witness for C2 (amended): a one-feature feed from an empty store; the
second pass inserts 0 rows. -/
theorem C2_second_pass_inserts_nothing_witness :
    (refreshSharkPositions
      (refreshSharkPositions (⟨[], [], 1, 0⟩ : DB)
        [⟨some (0, 0), some "A", none, none, none, none, none⟩]).1
      [⟨some (0, 0), some "A", none, none, none, none, none⟩]).2 = 0 :=
  (C2_second_pass_inserts_nothing ⟨[], [], 1, 0⟩
    [⟨some (0, 0), some "A", none, none, none, none, none⟩]
    ⟨by decide, by decide, by decide⟩ (by decide)).1

/-! ### The GET /sharks aggregation -/

/-- **C3 counterexample.** The code orders tracks by `created_at`, not by
effective time. With two stored positions whose upstream timestamps run
backwards relative to ingestion (created 1 with source time 10, then
created 2 with source time 5), the served track's effective times are
`[10, 5]` — consecutive elements are *not* non-decreasing in effective
time, contradicting the claim. -/
theorem C3_counterexample :
    ¬ ∀ e ∈ getSharksResponse
        (⟨[⟨1, "A", none, none, none, 0⟩],
          [⟨1, 0, 0, some 10, 1⟩, ⟨1, 0, 0, some 5, 2⟩], 2, 3⟩ : DB),
      List.Sorted (fun a b => a ≤ b) (e.track.map SharkTrackPoint.time) := by
  decide

/-- **C3 (amended).** For every entity in the `GET /sharks` response, the
returned track is the entity's stored positions sorted ascending by
`createdAt` (ingestion time) — not by effective time; each served point
carries effective time (`sourceTimestamp` if present, else `createdAt`)
in its `time` field; and the reported latest position
(latitude/longitude/last_update) is the last element of the track after
that `createdAt` sorting. -/
theorem C3_track_ordering (db : DB) (ids : List ℕ) (sid : ℕ) :
    List.Sorted posLE (trackRowsFor db ids sid) ∧
    (sid ∈ ids → (trackRowsFor db ids sid).Perm
      (db.positions.filter (fun p => p.shark_id == sid))) ∧
    trackFor db ids sid = (trackRowsFor db ids sid).map toTrackPoint ∧
    (∀ e ∈ getSharksResponse db,
      e.track = trackFor db
        ((List.insertionSort sharkIdLE db.sharks).map SharkRow.id)
        e.internalId ∧
      getLatest e.track = some ⟨e.latitude, e.longitude, e.last_update⟩) := by
  refine ⟨?_, ?_, rfl, ?_⟩
  · exact List.Pairwise.filter _ (List.sorted_insertionSort posLE _)
  · intro hsid
    unfold trackRowsFor queryPositionsIn
    have h1 : (List.insertionSort posLE (db.positions.filter
        (fun p => ids.contains p.shark_id))).filter
          (fun p => p.shark_id == sid) |>.Perm
        ((db.positions.filter (fun p => ids.contains p.shark_id)).filter
          (fun p => p.shark_id == sid)) :=
      (List.perm_insertionSort posLE _).filter _
    refine h1.trans ?_
    rw [List.filter_filter]
    apply List.Perm.of_eq
    apply List.filter_congr
    intro p _
    by_cases hp : p.shark_id = sid
    · subst hp
      simp [hsid]
    · simp [hp]
  · intro e he
    unfold getSharksResponse at he
    obtain ⟨r, _, hfr⟩ := List.mem_filterMap.mp he
    rcases hget : getLatest (trackFor db
        ((List.insertionSort sharkIdLE db.sharks).map SharkRow.id) r.id)
      with _ | latest <;> rw [hget] at hfr
    · cases hfr
    · have he2 : e = ⟨r.id, latest.lat, latest.lng, latest.time, none,
          trackFor db ((List.insertionSort sharkIdLE db.sharks).map
            SharkRow.id) r.id⟩ := by
        cases hfr
        rfl
      subst he2
      refine ⟨rfl, ?_⟩
      simp only
      rw [hget]

/-- Witness for C3 (amended): on a concrete store, the track rows for
shark 1 are a permutation of exactly its stored positions. -/
theorem C3_track_ordering_witness :
    (trackRowsFor (⟨[⟨1, "A", none, none, none, 0⟩],
        [⟨1, 0, 0, some 10, 1⟩, ⟨1, 0, 0, some 5, 2⟩], 2, 3⟩ : DB)
        [1] 1).Perm
      ((⟨[⟨1, "A", none, none, none, 0⟩],
        [⟨1, 0, 0, some 10, 1⟩, ⟨1, 0, 0, some 5, 2⟩], 2, 3⟩ :
          DB).positions.filter (fun p => p.shark_id == 1)) :=
  (C3_track_ordering ⟨[⟨1, "A", none, none, none, 0⟩],
      [⟨1, 0, 0, some 10, 1⟩, ⟨1, 0, 0, some 5, 2⟩], 2, 3⟩
    [1] 1).2.1 (by decide)

/-! ### The per-entity track endpoint -/

/-- **C6.** On `GET /sharks/:id/track` with a finite positive `hours`,
positions are filtered by ingestion time — `created_at ≥ now − hours` (in
milliseconds) — not by effective time; with `hours` omitted the full
unbounded history is returned; in both cases the served points are the
`created_at`-ascending ordering of the selected rows. -/
theorem C6_track_window (db : DB) (idp : IdParam) (q : ℚ) (now : ℤ)
    (sid : ℕ) (hq : 0 < q)
    (hres : resolveTrackId qfOk db idp = some sid) (hsid : sid ≠ 0) :
    sharkTrack qfOk db idp (some (JsNumber.val q)) now =
      TrackResult.ok ((List.insertionSort posLE (db.positions.filter
        (fun p => p.shark_id == sid &&
          decide ((now : ℚ) - q * 3600000 ≤ (p.created_at : ℚ))))).map
        toTrackOut) ∧
    sharkTrack qfOk db idp none now =
      TrackResult.ok ((List.insertionSort posLE (db.positions.filter
        (fun p => p.shark_id == sid))).map toTrackOut) ∧
    List.Sorted posLE (List.insertionSort posLE (db.positions.filter
      (fun p => p.shark_id == sid &&
        decide ((now : ℚ) - q * 3600000 ≤ (p.created_at : ℚ))))) ∧
    List.Sorted posLE (List.insertionSort posLE (db.positions.filter
      (fun p => p.shark_id == sid))) := by
  refine ⟨?_, ?_, List.sorted_insertionSort posLE _,
    List.sorted_insertionSort posLE _⟩
  · unfold sharkTrack
    rw [hres]
    simp only [qfOk, if_pos hq, Bool.false_eq_true, if_false, if_neg hsid]
  · unfold sharkTrack
    rw [hres]
    simp only [qfOk, Bool.false_eq_true, if_false, if_neg hsid,
      Bool.and_true]

/-- Witness for C6: a concrete store and window; the window keeps only the
row ingested inside it. -/
theorem C6_track_window_witness :
    sharkTrack qfOk
        (⟨[⟨1, "A", none, none, none, 0⟩],
          [⟨1, 0, 0, none, 1000⟩, ⟨1, 1, 1, none, 7000000⟩], 2,
          8000000⟩ : DB)
        ⟨"A", none⟩ (some (JsNumber.val 1)) 8000000 =
      TrackResult.ok ((List.insertionSort posLE
        ((⟨[⟨1, "A", none, none, none, 0⟩],
          [⟨1, 0, 0, none, 1000⟩, ⟨1, 1, 1, none, 7000000⟩], 2,
          8000000⟩ : DB).positions.filter
          (fun p => p.shark_id == 1 &&
            decide (((8000000 : ℤ) : ℚ) - 1 * 3600000 ≤
              (p.created_at : ℚ))))).map toTrackOut) :=
  (C6_track_window
    ⟨[⟨1, "A", none, none, none, 0⟩],
      [⟨1, 0, 0, none, 1000⟩, ⟨1, 1, 1, none, 7000000⟩], 2, 8000000⟩
    ⟨"A", none⟩ 1 8000000 1 (by norm_num) (by decide) (by decide)).1

/-- **C7.** On `GET /sharks/:id/track`, the `:id` parameter resolves first
as the entity's external identifier; when that finds nothing and the
parameter is numeric, it falls back to the internal surrogate key; when
neither resolves, the endpoint answers the empty array — never an error
response, even if the position query would have failed. -/
theorem C7_track_id_resolution (db : DB) (idp : IdParam)
    (hours : Option JsNumber) (now : ℤ) :
    (∀ r, db.sharks.find? (fun s => s.external_id == idp.raw) = some r →
      resolveTrackId qfOk db idp = some r.id) ∧
    (∀ (q : ℚ) r,
      db.sharks.find? (fun s => s.external_id == idp.raw) = none →
      idp.asNumber = some q →
      db.sharks.find? (fun s => decide ((s.id : ℚ) = q)) = some r →
      resolveTrackId qfOk db idp = some r.id) ∧
    (db.sharks.find? (fun s => s.external_id == idp.raw) = none →
      idp.asNumber = none → resolveTrackId qfOk db idp = none) ∧
    (∀ qf : QueryFail, resolveTrackId qf db idp = none →
      sharkTrack qf db idp hours now = TrackResult.ok []) := by
  refine ⟨?_, ?_, ?_, ?_⟩
  · intro r hr
    unfold resolveTrackId
    simp only [qfOk, Bool.false_eq_true, if_false]
    rw [hr]
  · intro q r hext hnum hint
    unfold resolveTrackId
    simp only [qfOk, Bool.false_eq_true, if_false]
    simp only [hext, hnum, hint]
  · intro hext hnum
    unfold resolveTrackId
    simp only [qfOk, Bool.false_eq_true, if_false]
    rw [hext, hnum]
  · intro qf hres
    unfold sharkTrack
    rw [hres]

/-- Witness for C7: an id that matches no row in either way yields the
empty array even with a failing position query. -/
theorem C7_track_id_resolution_witness :
    sharkTrack ⟨false, false, true⟩
      (⟨[⟨1, "A", none, none, none, 0⟩], [], 2, 0⟩ : DB)
      ⟨"Z", some 9⟩ none 0 = TrackResult.ok [] :=
  (C7_track_id_resolution ⟨[⟨1, "A", none, none, none, 0⟩], [], 2, 0⟩
    ⟨"Z", some 9⟩ none 0).2.2.2 ⟨false, false, true⟩ (by decide)

/-- **C10.** A present `hours` parameter that is not a finite positive
number (NaN or infinite from non-numeric text, zero, or negative) makes
the endpoint behave exactly as if `hours` were omitted: no time filter,
full history, no error, no default window. -/
theorem C10_invalid_hours (qf : QueryFail) (db : DB) (idp : IdParam)
    (now : ℤ) (q : ℚ) (hq : q ≤ 0) :
    sharkTrack qf db idp (some JsNumber.nan) now =
      sharkTrack qf db idp none now ∧
    sharkTrack qf db idp (some (JsNumber.val q)) now =
      sharkTrack qf db idp none now := by
  constructor
  · rfl
  · simp only [sharkTrack]
    rw [if_neg (not_lt.mpr hq)]

/-- Witness for C10: `hours = 0` returns the same full history as an
omitted `hours`. -/
theorem C10_invalid_hours_witness :
    sharkTrack qfOk (⟨[⟨1, "A", none, none, none, 0⟩],
        [⟨1, 0, 0, none, 5⟩], 2, 10⟩ : DB) ⟨"A", none⟩
      (some (JsNumber.val 0)) 10 =
    sharkTrack qfOk (⟨[⟨1, "A", none, none, none, 0⟩],
        [⟨1, 0, 0, none, 5⟩], 2, 10⟩ : DB) ⟨"A", none⟩ none 10 :=
  (C10_invalid_hours qfOk
    ⟨[⟨1, "A", none, none, none, 0⟩], [⟨1, 0, 0, none, 5⟩], 2, 10⟩
    ⟨"A", none⟩ 10 0 le_rfl).2

/-! ### The SST cache -/

theorem cacheGet_set (c : SstCache) (k : SstKey) (e : CacheEntry) :
    cacheGet (cacheSet c k e) k = some e := by
  unfold cacheGet cacheSet
  rw [List.find?_append]
  have h1 : (c.filter (fun kv => !decide (kv.1 = k))).find?
      (fun kv => decide (kv.1 = k)) = none := by
    rw [List.find?_eq_none]
    intro x hx hpx
    have h2 := (List.mem_filter.mp hx).2
    simp only [Bool.not_eq_true', decide_eq_false_iff_not] at h2
    exact h2 (by simpa using hpx)
  rw [h1]
  simp

/-- **C8.** The SST cache key is the coordinates rounded to 2 decimal
places via `toFixed(2)` (sign first, then magnitude half-up, so the key
strings of `-0.00` and `0.00` differ) plus the current UTC calendar day,
so coordinate pairs whose `toFixed(2)` strings agree on the same day
share an entry. A successful lookup populates the entry with a 1-hour
expiry; a second lookup that computes the same key strictly within
1 hour of population returns the cached value with the cache unchanged —
independent of what upstream would answer, i.e. without an upstream
call. At or after 1 hour the entry is treated as a miss: the result is
whatever upstream answers, and a successful fresh value overwrites the
entry. -/
theorem C8_sst_cache :
    (∀ (a b a' b' : ℚ) (s s' : ℤ), toFixed2 a = toFixed2 a' →
      toFixed2 b = toFixed2 b' → utcDay s = utcDay s' →
      makeCacheKey a b s = makeCacheKey a' b' s') ∧
    (∀ (c0 : SstCache) (lat lon : ℚ) (t0 : ℤ) (v : ℚ),
      cacheHitValue c0 (makeCacheKey lat lon t0) t0 = none →
      fetchSeaSurfaceTemperature c0 lat lon t0 (SstUpstream.value v) =
        (some v,
          cacheSet c0 (makeCacheKey lat lon t0) ⟨v, t0 + CACHE_TTL_MS⟩)) ∧
    (∀ (c0 : SstCache) (lat lon lat' lon' : ℚ) (t0 t1 : ℤ) (v : ℚ),
      makeCacheKey lat' lon' t1 = makeCacheKey lat lon t0 →
      t1 < t0 + CACHE_TTL_MS →
      ∀ u, fetchSeaSurfaceTemperature
          (cacheSet c0 (makeCacheKey lat lon t0) ⟨v, t0 + CACHE_TTL_MS⟩)
          lat' lon' t1 u =
        (some v,
          cacheSet c0 (makeCacheKey lat lon t0) ⟨v, t0 + CACHE_TTL_MS⟩)) ∧
    (∀ (c0 : SstCache) (lat lon lat2 lon2 : ℚ) (t0 t2 : ℤ) (v w : ℚ),
      makeCacheKey lat2 lon2 t2 = makeCacheKey lat lon t0 →
      t0 + CACHE_TTL_MS ≤ t2 →
      (∀ u, (u = SstUpstream.httpError ∨ u = SstUpstream.noValue) →
        fetchSeaSurfaceTemperature
          (cacheSet c0 (makeCacheKey lat lon t0) ⟨v, t0 + CACHE_TTL_MS⟩)
          lat2 lon2 t2 u =
        (none,
          cacheSet c0 (makeCacheKey lat lon t0) ⟨v, t0 + CACHE_TTL_MS⟩)) ∧
      fetchSeaSurfaceTemperature
          (cacheSet c0 (makeCacheKey lat lon t0) ⟨v, t0 + CACHE_TTL_MS⟩)
          lat2 lon2 t2 (SstUpstream.value w) =
        (some w,
          cacheSet
            (cacheSet c0 (makeCacheKey lat lon t0) ⟨v, t0 + CACHE_TTL_MS⟩)
            (makeCacheKey lat2 lon2 t2) ⟨w, t2 + CACHE_TTL_MS⟩)) := by
  refine ⟨?_, ?_, ?_, ?_⟩
  · intro a b a' b' s s' h1 h2 h3
    unfold makeCacheKey
    rw [h1, h2, h3]
  · intro c0 lat lon t0 v hmiss
    simp only [fetchSeaSurfaceTemperature, hmiss]
  · intro c0 lat lon lat' lon' t0 t1 v hkey hlt u
    simp only [fetchSeaSurfaceTemperature, cacheHitValue, hkey,
      cacheGet_set, if_pos hlt]
  · intro c0 lat lon lat2 lon2 t0 t2 v w hkey hle
    constructor
    · intro u hu
      rcases hu with rfl | rfl <;>
        simp only [fetchSeaSurfaceTemperature, cacheHitValue, hkey,
          cacheGet_set, if_neg (not_lt.mpr hle)]
    · simp only [fetchSeaSurfaceTemperature, cacheHitValue, hkey,
        cacheGet_set, if_neg (not_lt.mpr hle)]

/-- Witness for C8: populate at time 0, look up the same coordinates 10 ms
later — the cached value is served and the cache is untouched even though
upstream would fail. -/
theorem C8_sst_cache_witness :
    fetchSeaSurfaceTemperature
        (cacheSet [] (makeCacheKey 1 2 0) ⟨25, 0 + CACHE_TTL_MS⟩)
        1 2 10 SstUpstream.httpError =
      (some 25, cacheSet [] (makeCacheKey 1 2 0) ⟨25, 0 + CACHE_TTL_MS⟩) :=
  C8_sst_cache.2.2.1 [] 1 2 1 2 0 10 25
    (C8_sst_cache.1 1 2 1 2 10 0 rfl rfl (by decide)) (by decide)
    SstUpstream.httpError

/-- **C9.** A failed enrichment call (non-success status or no numeric
value) returns null and writes nothing into the cache — negative results
are never cached — and inside the per-response enrichment loop one
entity's failure only sets that entity's `approxSst` to null while the
remaining entities are processed exactly as they would have been. -/
theorem C9_enrichment_failure :
    (∀ (c : SstCache) (lat lon : ℚ) (now : ℤ),
      cacheHitValue c (makeCacheKey lat lon now) now = none →
      ∀ u, (u = SstUpstream.httpError ∨ u = SstUpstream.noValue) →
        fetchSeaSurfaceTemperature c lat lon now u = (none, c)) ∧
    (∀ (c : SstCache) (lat lon : ℚ) (now : ℤ) (u : SstUpstream),
      (u = SstUpstream.httpError ∨ u = SstUpstream.noValue) →
      (fetchSeaSurfaceTemperature c lat lon now u).2 = c) ∧
    (∀ (now : ℤ) (c : SstCache) (s : SharkResp) (u : SstUpstream)
        (rest : List (SharkResp × SstUpstream)),
      (u = SstUpstream.httpError ∨ u = SstUpstream.noValue) →
      addApproxSstToSharks now c ((s, u) :: rest) =
        ({ s with approxSst :=
            (fetchSeaSurfaceTemperature c s.latitude s.longitude now u).1 } ::
          (addApproxSstToSharks now c rest).1,
          (addApproxSstToSharks now c rest).2) ∧
      (cacheHitValue c (makeCacheKey s.latitude s.longitude now) now = none →
        addApproxSstToSharks now c ((s, u) :: rest) =
          ({ s with approxSst := none } ::
            (addApproxSstToSharks now c rest).1,
            (addApproxSstToSharks now c rest).2))) := by
  have hfail1 : ∀ (c : SstCache) (lat lon : ℚ) (now : ℤ),
      cacheHitValue c (makeCacheKey lat lon now) now = none →
      ∀ u, (u = SstUpstream.httpError ∨ u = SstUpstream.noValue) →
        fetchSeaSurfaceTemperature c lat lon now u = (none, c) := by
    intro c lat lon now hmiss u hu
    rcases hu with rfl | rfl <;> simp only [fetchSeaSurfaceTemperature, hmiss]
  have hfail2 : ∀ (c : SstCache) (lat lon : ℚ) (now : ℤ) (u : SstUpstream),
      (u = SstUpstream.httpError ∨ u = SstUpstream.noValue) →
      (fetchSeaSurfaceTemperature c lat lon now u).2 = c := by
    intro c lat lon now u hu
    rcases hu with rfl | rfl <;>
      (unfold fetchSeaSurfaceTemperature;
       rcases hh : cacheHitValue c (makeCacheKey lat lon now) now
         with _ | x <;> simp [hh])
  refine ⟨hfail1, hfail2, ?_⟩
  intro now c s u rest hu
  constructor
  · simp only [addApproxSstToSharks]
    rw [hfail2 c s.latitude s.longitude now u hu]
  · intro hmiss
    have h1 := hfail1 c s.latitude s.longitude now hmiss u hu
    simp only [addApproxSstToSharks, h1]

/-- Witness for C9: an HTTP failure on an empty cache yields null and
leaves the cache empty. -/
theorem C9_enrichment_failure_witness :
    fetchSeaSurfaceTemperature [] 1 2 0 SstUpstream.httpError =
      (none, ([] : SstCache)) :=
  C9_enrichment_failure.1 [] 1 2 0 rfl SstUpstream.httpError (Or.inl rfl)

end SharkTracker
